import Mathlib

/-!
Shallow embedding of the litellm Antigravity provider core
(src/litellm/llms/antigravity/): account manager, authenticator caches,
reset-time parsing, and chat transformation.  Machine integers in the
source are Python arbitrary-precision ints, embedded as Int/Nat; wall-clock
times (time.time() * 1000 floats) are embedded as exact Rat/Int instants.
-/

namespace Antigravity

/-! ### String helpers (Python `in`, `str.lower`) -/

/-- ASCII lowercasing of one character, as Python str.lower acts on ASCII
(the only characters the embedded code compares case-insensitively). -/
def charLower (c : Char) : Char :=
  if 65 ≤ c.toNat ∧ c.toNat ≤ 90 then Char.ofNat (c.toNat + 32) else c

/-- ASCII uppercasing of one character (used to state case-insensitivity). -/
def charUpper (c : Char) : Char :=
  if 97 ≤ c.toNat ∧ c.toNat ≤ 122 then Char.ofNat (c.toNat - 32) else c

/-- Python `needle in hay` substring containment, on character lists. -/
def isSubstr (needle hay : List Char) : Bool :=
  hay.tails.any (fun t => needle.isPrefixOf t)

/-- Lowercased character list of a string, as Python `s.lower()` (ASCII). -/
def lowerChars (s : String) : List Char := s.data.map charLower

/-! ### common_utils.py constants -/

def DEFAULT_COOLDOWN_MS : Int := 60 * 1000

def MAX_WAIT_BEFORE_ERROR_MS : Int := 120000

def GEMINI_MAX_OUTPUT_TOKENS : Int := 16384

/-- common_utils.get_model_family: substring test on the lowercased name. -/
def get_model_family (model_name : String) : String :=
  let lower := lowerChars model_name
  if isSubstr "claude".data lower then "claude"
  else if isSubstr "gemini".data lower then "gemini"
  else "unknown"

/-! Digit / literal matchers used to embed the two `re.search` uses in
common_utils.py (`gemini[.-]?(\d+)` and the reset-after patterns).  All the
patterns involved are literal text plus `(\d+)` groups, for which greedy
maximal-munch digit matching is exact: a digit run is never followed by a
digit in the rest of the pattern, so regex backtracking cannot produce a
different match. -/

/-- Consume a maximal run of further digits, accumulating their value. -/
def takeDigits (acc : Nat) : List Char → Nat × List Char
  | [] => (acc, [])
  | c :: cs =>
    if c.isDigit then takeDigits (acc * 10 + (c.toNat - 48)) cs else (acc, c :: cs)

/-- Match `(\d+)` at the head: at least one digit, maximal run. -/
def matchDigits : List Char → Option (Nat × List Char)
  | [] => none
  | c :: cs => if c.isDigit then some (takeDigits (c.toNat - 48) cs) else none

/-- Match a literal at the head, returning the remainder. -/
def matchLit : List Char → List Char → Option (List Char)
  | [], cs => some cs
  | _ :: _, [] => none
  | l :: ls, c :: cs => if c = l then matchLit ls cs else none

/-- Match `gemini[.-]?(\d+)` anchored at the head, returning group 1.
After the literal, `[.-]?` greedily takes one separator; backtracking to the
empty alternative cannot succeed because the separator is not a digit. -/
def matchGeminiVersionAt (cs : List Char) : Option Nat :=
  (matchLit "gemini".data cs).bind fun rest =>
    match rest with
    | [] => none
    | c :: rest2 =>
      if c = '.' ∨ c = '-' then (matchDigits rest2).map Prod.fst
      else (matchDigits (c :: rest2)).map Prod.fst

/-- re.search of `gemini[.-]?(\d+)`: leftmost match wins. -/
def searchGeminiVersion : List Char → Option Nat
  | [] => none
  | c :: cs =>
    match matchGeminiVersionAt (c :: cs) with
    | some n => some n
    | none => searchGeminiVersion cs

/-- common_utils.is_thinking_model. -/
def is_thinking_model (model_name : String) : Bool :=
  let lower := lowerChars model_name
  if isSubstr "claude".data lower && isSubstr "thinking".data lower then true
  else if isSubstr "gemini".data lower then
    if isSubstr "thinking".data lower then true
    else
      match searchGeminiVersion lower with
      | some v => 3 ≤ v
      | none => false
  else false

/-! ### authenticator.py: TokenCache -/

structure TokenCacheEntry where
  access_token : String
  expires_at : Rat
deriving DecidableEq

/-- The TokenCache._cache dict, as a lookup function (email to entry). -/
def TokenCacheMap := String → Option TokenCacheEntry

def TokenCacheMap.empty : TokenCacheMap := fun _ => none

/-- TokenCache.get: returns the token only while `expires_at > now`. -/
def TokenCache.get (cache : TokenCacheMap) (email : String) (now : Rat) : Option String :=
  match cache email with
  | some entry => if now < entry.expires_at then some entry.access_token else none
  | none => none

/-- TokenCache.set: stores `expires_at = now + expires_in - 60` (60s buffer). -/
def TokenCache.set (cache : TokenCacheMap) (email : String) (access_token : String)
    (expires_in : Int) (now : Rat) : TokenCacheMap :=
  fun e => if e = email then some ⟨access_token, now + (expires_in : Rat) - 60⟩ else cache e

/-- C3: after `set(email, t, ttl)` at `set_time`, `get(email)` returns `t`
exactly while `now < set_time + ttl - 60` and nil from that instant on, so a
returned token is always more than 60 seconds from its stated expiry
`set_time + ttl`. -/
theorem C3_token_cache_expiry (cache : TokenCacheMap) (email t : String) (ttl : Int)
    (set_time now : Rat) :
    (now < set_time + (ttl : Rat) - 60 →
      TokenCache.get (TokenCache.set cache email t ttl set_time) email now = some t) ∧
    (set_time + (ttl : Rat) - 60 ≤ now →
      TokenCache.get (TokenCache.set cache email t ttl set_time) email now = none) ∧
    (∀ tok, TokenCache.get (TokenCache.set cache email t ttl set_time) email now = some tok →
      60 < (set_time + (ttl : Rat)) - now) := by
  refine ⟨?_, ?_, ?_⟩
  · intro h
    simp [TokenCache.get, TokenCache.set, h]
  · intro h
    simp [TokenCache.get, TokenCache.set, not_lt.mpr h]
  · intro tok h
    by_cases hlt : now < set_time + (ttl : Rat) - 60
    · linarith
    · simp [TokenCache.get, TokenCache.set, hlt] at h

/-- Witness for C3 at a concrete input: set at time 0 with ttl 3600, read at
time 100 (inside the window). -/
theorem C3_token_cache_expiry_witness :
    (100 : Rat) < 0 + ((3600 : Int) : Rat) - 60 ∧
    TokenCache.get (TokenCache.set TokenCacheMap.empty "a@x" "tok" 3600 0) "a@x" 100 =
      some "tok" := by
  constructor
  · norm_num
  · exact (C3_token_cache_expiry TokenCacheMap.empty "a@x" "tok" 3600 0 100).1 (by norm_num)

/-! ### account_manager.py: rate-limit ledger -/

structure RateLimitEntry where
  reset_time : Int
  model_id : Option String
deriving DecidableEq

/-- The AccountManager._rate_limits dict, as an insertion-ordered
association list (keys are unique in every reachable state). -/
def RateLimits := List (String × RateLimitEntry)

/-- AccountManager._get_rate_limit_key.  Python truthiness: a `None` or
empty-string model_id yields the bare email key. -/
def get_rate_limit_key (email : String) (model_id : Option String) : String :=
  match model_id with
  | some m => if m = "" then email else email ++ ":" ++ m
  | none => email

/-- Python dict lookup `d[key]` / `key in d`. -/
def dictLookup (key : String) : RateLimits → Option RateLimitEntry
  | [] => none
  | (k, v) :: rest => if k = key then some v else dictLookup key rest

/-- Python dict assignment `d[key] = v`: overwrite in place, else append. -/
def dictInsert (key : String) (v : RateLimitEntry) : RateLimits → RateLimits
  | [] => [(key, v)]
  | (k, w) :: rest => if k = key then (k, v) :: rest else (k, w) :: dictInsert key v rest

/-- Python `reset_ms or DEFAULT_COOLDOWN_MS`: both None and 0 are falsy. -/
def effectiveResetMs (reset_ms : Option Int) : Int :=
  match reset_ms with
  | some v => if v = 0 then DEFAULT_COOLDOWN_MS else v
  | none => DEFAULT_COOLDOWN_MS

/-- AccountManager.mark_rate_limited, at wall-clock instant `now`
(milliseconds, the `time.time() * 1000` of the call). -/
def mark_rate_limited (ledger : RateLimits) (email : String) (reset_ms : Option Int)
    (model_id : Option String) (now : Int) : RateLimits :=
  dictInsert (get_rate_limit_key email model_id)
    { reset_time := now + effectiveResetMs reset_ms, model_id := model_id } ledger

theorem dictLookup_dictInsert (key : String) (v : RateLimitEntry) :
    ∀ l : RateLimits, dictLookup key (dictInsert key v l) = some v := by
  intro l
  induction l with
  | nil => simp [dictInsert, dictLookup]
  | cons kv rest ih =>
    obtain ⟨k, w⟩ := kv
    by_cases h : k = key
    · simp [dictInsert, dictLookup, h]
    · simp [dictInsert, dictLookup, h, ih]

/-- C6 counterexample: with `reset_ms = 0` (non-nil), the stored reset time
is `now + 60_000`, not `now + 0`, because Python `reset_ms or
DEFAULT_COOLDOWN_MS` treats 0 as falsy. -/
theorem C6_counterexample :
    dictLookup "a@x" (mark_rate_limited [] "a@x" (some 0) none 1000) =
      some { reset_time := 1000 + 60000, model_id := none } ∧
    (1000 + 60000 : Int) ≠ 1000 + 0 := by
  constructor
  · rfl
  · decide

/-- C6 amended: mark_rate_limited stores, under the (email, model?) key,
`reset_time = now + reset_ms` when reset_ms is non-nil and nonzero, and
`reset_time = now + 60_000` when reset_ms is nil or zero. -/
theorem C6_mark_rate_limited_amended (ledger : RateLimits) (email : String)
    (reset_ms : Option Int) (model_id : Option String) (now : Int) :
    dictLookup (get_rate_limit_key email model_id)
        (mark_rate_limited ledger email reset_ms model_id now) =
      some { reset_time := now + (match reset_ms with
                                  | some v => if v = 0 then 60000 else v
                                  | none => 60000),
             model_id := model_id } := by
  have h := dictLookup_dictInsert (get_rate_limit_key email model_id)
    { reset_time := now + effectiveResetMs reset_ms, model_id := model_id } ledger
  rw [mark_rate_limited, h]
  rcases reset_ms with _ | v
  · rfl
  · by_cases hv : v = 0 <;> simp [effectiveResetMs, DEFAULT_COOLDOWN_MS, hv]

/-! ### account_manager.py: get_min_wait_time_ms -/

/-- The `continue` condition of the scan loop:
`if model_id and f":{model_id}" not in key and ":" in key`. -/
def minWaitSkip (model_id : Option String) (key : String) : Bool :=
  match model_id with
  | some m => m != "" && !(isSubstr (":" ++ m).data key.data) && isSubstr [':'] key.data
  | none => false

/-- Minimum accumulator of the loop; `none` models the initial
`float("inf")`. -/
def optMin : Option Int → Int → Option Int
  | none, w => some w
  | some v, w => some (min v w)

/-- The scan loop of get_min_wait_time_ms over the ledger entries. -/
def minWaitLoop (model_id : Option String) (now : Int) :
    RateLimits → Option Int → Option Int
  | [], acc => acc
  | (key, limit) :: rest, acc =>
    if minWaitSkip model_id key then minWaitLoop model_id now rest acc
    else
      if now < limit.reset_time then
        minWaitLoop model_id now rest (optMin acc (limit.reset_time - now))
      else minWaitLoop model_id now rest acc

/-- AccountManager.get_min_wait_time_ms at wall-clock instant `now` (ms). -/
def get_min_wait_time_ms (ledger : RateLimits) (model_id : Option String) (now : Int) : Int :=
  match minWaitLoop model_id now ledger none with
  | some w => w
  | none => 0

/-- Spec-side scan filter, following the claim words: scan exactly the keys
ending in ":" ++ model (when a model filter is given) and the keys without a
colon (entries that have no model). -/
def claimScanFilter (model_id : Option String) (key : String) : Bool :=
  match model_id with
  | some m => (":" ++ m).data.isSuffixOf key.data || !(isSubstr [':'] key.data)
  | none => true

/-- Spec-side min-wait, following the claim words: smallest positive
`reset_time - now` over the claim-filtered entries, 0 when there is none. -/
def min_wait_claim_spec (ledger : RateLimits) (model_id : Option String) (now : Int) : Int :=
  let waits := ((ledger.filter (fun kv => claimScanFilter model_id kv.1)).map
      (fun kv => kv.2.reset_time - now)).filter (fun w => 0 < w)
  match waits.foldl optMin none with
  | some w => w
  | none => 0

/-- C1 counterexample: the code filter is substring containment of
":" ++ model, not suffix matching, so with filter `claude-sonnet-4.5` the
entry keyed to the different model `claude-sonnet-4.5-thinking` is scanned
(its wait of 100 ms is returned), while the scan set of the claim is empty and
would give 0. -/
theorem C1_counterexample :
    get_min_wait_time_ms
        [("a@x:claude-sonnet-4.5-thinking", { reset_time := 100, model_id := some "claude-sonnet-4.5-thinking" })]
        (some "claude-sonnet-4.5") 0 = 100 ∧
    min_wait_claim_spec
        [("a@x:claude-sonnet-4.5-thinking", { reset_time := 100, model_id := some "claude-sonnet-4.5-thinking" })]
        (some "claude-sonnet-4.5") 0 = 0 ∧
    (100 : Int) ≠ 0 := by
  refine ⟨by rfl, by rfl, by decide⟩

/-- The complement of the skip condition, written declaratively: an entry is
scanned iff the model filter is absent or empty, or ":" ++ model occurs in
the key as a substring, or the key has no colon. -/
def codeScanFilter (model_id : Option String) (key : String) : Bool :=
  match model_id with
  | some m => m == "" || isSubstr (":" ++ m).data key.data || !(isSubstr [':'] key.data)
  | none => true

theorem codeScanFilter_eq_not_skip (model_id : Option String) (key : String) :
    codeScanFilter model_id key = !(minWaitSkip model_id key) := by
  rcases model_id with _ | m
  · rfl
  · simp only [codeScanFilter, minWaitSkip, bne]
    cases h1 : m == "" <;> cases h2 : isSubstr (":" ++ m).data key.data <;>
      cases h3 : isSubstr [':'] key.data <;> rfl

/-- The positive waits among the entries the code scans, in ledger order. -/
def codePositiveWaits (ledger : RateLimits) (model_id : Option String) (now : Int) : List Int :=
  ((ledger.filter (fun kv => codeScanFilter model_id kv.1)).map
      (fun kv => kv.2.reset_time - now)).filter (fun w => 0 < w)

theorem minWaitLoop_eq_foldl (model_id : Option String) (now : Int) :
    ∀ (l : RateLimits) (acc : Option Int),
      minWaitLoop model_id now l acc = (codePositiveWaits l model_id now).foldl optMin acc := by
  intro l
  induction l with
  | nil => intro acc; rfl
  | cons kv rest ih =>
    intro acc
    obtain ⟨key, limit⟩ := kv
    cases hs : minWaitSkip model_id key with
    | true =>
      have hf : codeScanFilter model_id key = false := by
        rw [codeScanFilter_eq_not_skip, hs]; rfl
      simp [minWaitLoop, hs, codePositiveWaits, List.filter_cons, hf, ih]
    | false =>
      have hf : codeScanFilter model_id key = true := by
        rw [codeScanFilter_eq_not_skip, hs]; rfl
      by_cases hp : now < limit.reset_time
      · have hw : (0 < limit.reset_time - now) := by omega
        simp [minWaitLoop, hs, codePositiveWaits, List.filter_cons, hf, hp, hw, ih]
      · have hw : ¬ (0 < limit.reset_time - now) := by omega
        simp [minWaitLoop, hs, codePositiveWaits, List.filter_cons, hf, hp, hw, ih]

theorem foldl_optMin_mem :
    ∀ (ws : List Int) (acc : Option Int) (m : Int),
      ws.foldl optMin acc = some m → m ∈ ws ∨ acc = some m := by
  intro ws
  induction ws with
  | nil => intro acc m h; right; exact h
  | cons w rest ih =>
    intro acc m h
    rcases ih (optMin acc w) m h with hmem | hacc
    · left; exact List.mem_cons_of_mem _ hmem
    · rcases acc with _ | v
      · simp [optMin] at hacc
        left; simp [hacc]
      · simp [optMin] at hacc
        rcases le_total v w with hvw | hwv
        · right; rw [min_eq_left hvw] at hacc; rw [hacc]
        · left; rw [min_eq_right hwv] at hacc; simp [hacc]

theorem foldl_optMin_le :
    ∀ (ws : List Int) (acc : Option Int) (m : Int),
      ws.foldl optMin acc = some m →
      (∀ w ∈ ws, m ≤ w) ∧ (∀ v, acc = some v → m ≤ v) := by
  intro ws
  induction ws with
  | nil =>
    intro acc m h
    refine ⟨fun w hw => absurd hw (List.not_mem_nil w), fun v hv => ?_⟩
    rw [hv] at h
    injection h with h2
    omega
  | cons w rest ih =>
    intro acc m h
    obtain ⟨hrest, hacc⟩ := ih (optMin acc w) m h
    have hw : m ≤ w := by
      rcases acc with _ | v
      · exact hacc w rfl
      · exact le_trans (hacc (min v w) rfl) (min_le_right v w)
    refine ⟨?_, ?_⟩
    · intro x hx
      rcases List.mem_cons.mp hx with hxw | hxr
      · rw [hxw]; exact hw
      · exact hrest x hxr
    · intro v hv
      rcases acc with _ | u
      · cases hv
      · injection hv with hv2
        subst hv2
        exact le_trans (hacc (min u w) rfl) (min_le_left u w)

theorem foldl_optMin_none :
    ∀ (ws : List Int) (acc : Option Int),
      ws.foldl optMin acc = none → acc = none ∧ ws = [] := by
  intro ws
  induction ws with
  | nil => intro acc h; exact ⟨h, rfl⟩
  | cons w rest ih =>
    intro acc h
    have := (ih (optMin acc w) h).1
    rcases acc with _ | v <;> simp [optMin] at this

/-- C1 amended: get_min_wait_time_ms scans the entries whose key contains
":" ++ model as a substring (not only suffix matches, so entries keyed to a
different model whose key contains ":" ++ model are also scanned) together
with the entries whose key has no colon, and returns the smallest positive
`reset_time - now` over the scanned entries, or 0 when no scanned entry has
a positive remaining wait. -/
theorem C1_min_wait_amended (ledger : RateLimits) (model_id : Option String) (now : Int) :
    (codePositiveWaits ledger model_id now = [] →
      get_min_wait_time_ms ledger model_id now = 0) ∧
    (codePositiveWaits ledger model_id now ≠ [] →
      get_min_wait_time_ms ledger model_id now ∈ codePositiveWaits ledger model_id now ∧
      ∀ w ∈ codePositiveWaits ledger model_id now,
        get_min_wait_time_ms ledger model_id now ≤ w) := by
  constructor
  · intro h
    rw [get_min_wait_time_ms, minWaitLoop_eq_foldl, h]
    rfl
  · intro h
    rcases hcase : (codePositiveWaits ledger model_id now).foldl optMin none with _ | m
    · exact absurd (foldl_optMin_none _ _ hcase).2 h
    · have hres : get_min_wait_time_ms ledger model_id now = m := by
        rw [get_min_wait_time_ms, minWaitLoop_eq_foldl, hcase]
      rw [hres]
      constructor
      · rcases foldl_optMin_mem _ _ _ hcase with hm | habs
        · exact hm
        · cases habs
      · exact (foldl_optMin_le _ _ _ hcase).1

/-- Witness for C1 amended at a concrete ledger: one global entry with
remaining wait 70 and one per-model entry with remaining wait 40; the scan
set is non-empty, so the returned value is a member of it and minimal. -/
theorem C1_min_wait_amended_witness :
    codePositiveWaits
        [("a@x", { reset_time := 100, model_id := none }),
         ("a@x:gemini-3-flash", { reset_time := 70, model_id := some "gemini-3-flash" })]
        (some "gemini-3-flash") 30 ≠ [] ∧
    (get_min_wait_time_ms
        [("a@x", { reset_time := 100, model_id := none }),
         ("a@x:gemini-3-flash", { reset_time := 70, model_id := some "gemini-3-flash" })]
        (some "gemini-3-flash") 30 ∈
      codePositiveWaits
        [("a@x", { reset_time := 100, model_id := none }),
         ("a@x:gemini-3-flash", { reset_time := 70, model_id := some "gemini-3-flash" })]
        (some "gemini-3-flash") 30 ∧
    ∀ w ∈ codePositiveWaits
        [("a@x", { reset_time := 100, model_id := none }),
         ("a@x:gemini-3-flash", { reset_time := 70, model_id := some "gemini-3-flash" })]
        (some "gemini-3-flash") 30,
      get_min_wait_time_ms
        [("a@x", { reset_time := 100, model_id := none }),
         ("a@x:gemini-3-flash", { reset_time := 70, model_id := some "gemini-3-flash" })]
        (some "gemini-3-flash") 30 ≤ w) :=
  ⟨by decide,
   (C1_min_wait_amended
      [("a@x", { reset_time := 100, model_id := none }),
       ("a@x:gemini-3-flash", { reset_time := 70, model_id := some "gemini-3-flash" })]
      (some "gemini-3-flash") 30).2 (by decide)⟩

/-! ### Accounts and the authenticator store -/

/-- One account dict.  `Option` fields model presence of the dict key:
`none` means the key is absent (json.dump then omits it). -/
structure Account where
  email : String
  refresh_token : Option String := none
  project_id : Option String := none
  is_invalid : Option Bool := none
  invalid_reason : Option String := none
deriving DecidableEq

/-- AccountManager._is_account_invalid: `account.get("is_invalid", False)`. -/
def is_account_invalid (a : Account) : Bool := a.is_invalid.getD false

/-- AccountManager._is_account_rate_limited at instant `now` (ms): the
per-model key or the per-account key holds an entry with
`reset_time > now`. -/
def is_account_rate_limited (ledger : RateLimits) (a : Account)
    (model_id : Option String) (now : Int) : Bool :=
  (match dictLookup (get_rate_limit_key a.email model_id) ledger with
   | some limit => decide (now < limit.reset_time)
   | none => false) ||
  (match dictLookup (get_rate_limit_key a.email none) ledger with
   | some limit => decide (now < limit.reset_time)
   | none => false)

/-- The AccountManager state pick_next reads and writes: the account list
snapshot, the round-robin index and the rate-limit ledger. -/
structure ManagerState where
  accounts : List Account
  current_index : Nat
  rate_limits : RateLimits

/-- The `for _ in range(len(accounts))` loop of pick_next: advance the index
modulo the account count and return the first account that is neither
rate-limited nor invalid.  `accounts.get? idx2` never misses because the
advanced index is reduced modulo the (positive) length. -/
def pickNextLoop (ledger : RateLimits) (model_id : Option String) (now : Int)
    (accounts : List Account) : Nat → Nat → Option (Account × Nat)
  | 0, _ => none
  | fuel + 1, idx =>
    let idx2 := (idx + 1) % accounts.length
    match accounts.get? idx2 with
    | some a =>
      if !(is_account_rate_limited ledger a model_id now) && !(is_account_invalid a) then
        some (a, idx2)
      else pickNextLoop ledger model_id now accounts fuel idx2
    | none => pickNextLoop ledger model_id now accounts fuel idx2

/-- AccountManager.pick_next at instant `now`: on success the index sticks
at the returned position; on failure the starting index is restored. -/
def pick_next (model_id : Option String) (now : Int) (st : ManagerState) :
    Option Account × ManagerState :=
  if st.accounts.isEmpty then (none, st)
  else
    match pickNextLoop st.rate_limits model_id now st.accounts st.accounts.length
        st.current_index with
    | some (a, idx) => (some a, { st with current_index := idx })
    | none => (none, st)

/-- Run `k` successive pick_next calls, collecting the returned accounts. -/
def runPickNext (model_id : Option String) (now : Int) :
    Nat → ManagerState → List (Option Account) × ManagerState
  | 0, st => ([], st)
  | k + 1, st =>
    let step := pick_next model_id now st
    let rest := runPickNext model_id now k step.2
    (step.1 :: rest.1, rest.2)

theorem pickNextLoop_hit (ledger : RateLimits) (model_id : Option String) (now : Int)
    (accounts : List Account) (fuel idx : Nat) (a : Account)
    (ha : accounts.get? ((idx + 1) % accounts.length) = some a)
    (hrl : is_account_rate_limited ledger a model_id now = false)
    (hinv : is_account_invalid a = false) :
    pickNextLoop ledger model_id now accounts (fuel + 1) idx =
      some (a, (idx + 1) % accounts.length) := by
  have ha2 : accounts[(idx + 1) % accounts.length]? = some a := by
    rw [← List.get?_eq_getElem?]
    exact ha
  simp [pickNextLoop, ha2, hrl, hinv]

theorem pick_next_step (model_id : Option String) (now : Int) (st : ManagerState)
    (hne : st.accounts ≠ [])
    (hav : ∀ a ∈ st.accounts,
      is_account_rate_limited st.rate_limits a model_id now = false ∧
      is_account_invalid a = false) :
    pick_next model_id now st =
      (st.accounts.get? ((st.current_index + 1) % st.accounts.length),
       { st with current_index := (st.current_index + 1) % st.accounts.length }) := by
  have hlen : 0 < st.accounts.length := List.length_pos.mpr hne
  have hemp : st.accounts.isEmpty = false := by
    cases hacc : st.accounts with
    | nil => exact absurd hacc hne
    | cons a l => rfl
  have hidx : (st.current_index + 1) % st.accounts.length < st.accounts.length :=
    Nat.mod_lt _ hlen
  obtain ⟨a, ha⟩ : ∃ a, st.accounts.get? ((st.current_index + 1) % st.accounts.length) = some a :=
    ⟨_, List.get?_eq_get hidx⟩
  obtain ⟨hrl, hinv⟩ := hav a (List.get?_mem ha)
  obtain ⟨n, hn⟩ : ∃ n, st.accounts.length = n + 1 := ⟨st.accounts.length - 1, by omega⟩
  have hloop := pickNextLoop_hit st.rate_limits model_id now st.accounts n
    st.current_index a ha hrl hinv
  rw [pick_next, hemp]
  rw [← hn] at hloop
  simp only [Bool.false_eq_true, if_false, hloop, ha]

theorem runPickNext_char (model_id : Option String) (now : Int)
    (accounts : List Account) (ledger : RateLimits)
    (hne : accounts ≠ [])
    (hav : ∀ a ∈ accounts,
      is_account_rate_limited ledger a model_id now = false ∧
      is_account_invalid a = false) :
    ∀ (k i : Nat), i < accounts.length →
      runPickNext model_id now k ⟨accounts, i, ledger⟩ =
        ((List.range k).map (fun j => accounts.get? ((i + j + 1) % accounts.length)),
         ⟨accounts, (i + k) % accounts.length, ledger⟩) := by
  have hlen : 0 < accounts.length := List.length_pos.mpr hne
  intro k
  induction k with
  | zero =>
    intro i hi
    simp [runPickNext, Nat.mod_eq_of_lt hi]
  | succ k ih =>
    intro i hi
    have hstep := pick_next_step model_id now ⟨accounts, i, ledger⟩ hne hav
    have hi2 : (i + 1) % accounts.length < accounts.length := Nat.mod_lt _ hlen
    have ihr := ih ((i + 1) % accounts.length) hi2
    rw [runPickNext, hstep]
    simp only [ihr]
    refine Prod.ext ?_ ?_
    · show accounts.get? ((i + 1) % accounts.length) ::
        (List.range k).map
          (fun j => accounts.get? (((i + 1) % accounts.length + j + 1) % accounts.length)) =
        (List.range (k + 1)).map (fun j => accounts.get? ((i + j + 1) % accounts.length))
      rw [List.range_succ_eq_map, List.map_cons, List.map_map]
      congr 1
      refine List.map_congr_left ?_
      intro j _
      show accounts.get? (((i + 1) % accounts.length + j + 1) % accounts.length) =
        accounts.get? ((i + (j + 1) + 1) % accounts.length)
      congr 1
      calc ((i + 1) % accounts.length + j + 1) % accounts.length
          = ((i + 1) % accounts.length + (j + 1)) % accounts.length := by
            congr 1 <;> omega
        _ = ((i + 1) + (j + 1)) % accounts.length := Nat.mod_add_mod _ _ _
        _ = (i + (j + 1) + 1) % accounts.length := by congr 1 <;> omega
    · show (⟨accounts, ((i + 1) % accounts.length + k) % accounts.length, ledger⟩ :
          ManagerState) = ⟨accounts, (i + (k + 1)) % accounts.length, ledger⟩
      congr 1
      calc ((i + 1) % accounts.length + k) % accounts.length
          = ((i + 1) + k) % accounts.length := Nat.mod_add_mod _ _ _
        _ = (i + (k + 1)) % accounts.length := by congr 1 <;> omega

/-- C9: with a non-empty account list, an in-range index, no account
invalid and no account rate-limited for the queried model, every pick_next
call advances the round-robin index by exactly one modulo n (the k-th call
leaves it at (i + k) % n), and n successive calls return every account of
the list at least once. -/
theorem C9_pick_next_round_robin (accounts : List Account) (ledger : RateLimits)
    (model_id : Option String) (now : Int) (i : Nat)
    (hne : accounts ≠ [])
    (hi : i < accounts.length)
    (hinv : ∀ a ∈ accounts, is_account_invalid a = false)
    (hrl : ∀ a ∈ accounts, is_account_rate_limited ledger a model_id now = false) :
    (∀ k, (runPickNext model_id now k ⟨accounts, i, ledger⟩).2.current_index =
        (i + k) % accounts.length) ∧
    (∀ a ∈ accounts,
      some a ∈ (runPickNext model_id now accounts.length ⟨accounts, i, ledger⟩).1) := by
  have hav : ∀ a ∈ accounts,
      is_account_rate_limited ledger a model_id now = false ∧
      is_account_invalid a = false :=
    fun a ha => ⟨hrl a ha, hinv a ha⟩
  have hlen : 0 < accounts.length := List.length_pos.mpr hne
  have hchar := runPickNext_char model_id now accounts ledger hne hav
  constructor
  · intro k
    rw [hchar k i hi]
  · intro a ha
    rw [hchar accounts.length i hi]
    obtain ⟨idx, hget⟩ := List.mem_iff_get.mp ha
    have hidx : (idx : Nat) < accounts.length := idx.isLt
    have hget2 : accounts.get? (idx : Nat) = some a := by
      rw [List.get?_eq_get hidx, hget]
    have hrlt : (i + 1) % accounts.length < accounts.length := Nat.mod_lt _ hlen
    refine List.mem_map.mpr
      ⟨((idx : Nat) + accounts.length - (i + 1) % accounts.length) % accounts.length,
       List.mem_range.mpr (Nat.mod_lt _ hlen), ?_⟩
    have harith :
        (i + ((idx : Nat) + accounts.length - (i + 1) % accounts.length) % accounts.length + 1) %
          accounts.length = (idx : Nat) := by
      calc (i + ((idx : Nat) + accounts.length - (i + 1) % accounts.length) % accounts.length + 1) %
            accounts.length
          = ((i + 1) +
              ((idx : Nat) + accounts.length - (i + 1) % accounts.length) % accounts.length) %
            accounts.length := by congr 1 <;> omega
        _ = ((i + 1) % accounts.length +
              ((idx : Nat) + accounts.length - (i + 1) % accounts.length) % accounts.length) %
            accounts.length := (Nat.mod_add_mod _ _ _).symm
        _ = ((i + 1) % accounts.length +
              ((idx : Nat) + accounts.length - (i + 1) % accounts.length)) %
            accounts.length := Nat.add_mod_mod _ _ _
        _ = ((idx : Nat) + accounts.length) % accounts.length := by congr 1 <;> omega
        _ = (idx : Nat) % accounts.length := Nat.add_mod_right _ _
        _ = (idx : Nat) := Nat.mod_eq_of_lt hidx
    rw [harith]
    exact hget2

/-- Witness for C9: two healthy accounts, empty ledger, index 0; the two
successive calls return both accounts and the index advances by one per
call. -/
theorem C9_pick_next_round_robin_witness :
    (∀ k, (runPickNext none 0 k
        ⟨[{ email := "a@x" }, { email := "b@y" }], 0, []⟩).2.current_index =
        (0 + k) % ([{ email := "a@x" }, { email := "b@y" }] : List Account).length) ∧
    (∀ a ∈ ([{ email := "a@x" }, { email := "b@y" }] : List Account),
      some a ∈ (runPickNext none 0
        ([{ email := "a@x" }, { email := "b@y" }] : List Account).length
        ⟨[{ email := "a@x" }, { email := "b@y" }], 0, []⟩).1) :=
  C9_pick_next_round_robin [{ email := "a@x" }, { email := "b@y" }] [] none 0 0
    (by decide) (by decide) (by decide) (by decide)

/-! ### account_manager.mark_invalid and authenticator._save_accounts

Authenticator.get_accounts returns `self._accounts.copy()`: a shallow copy,
whose elements are the very dict objects held by the store.  mark_invalid
mutates the first matching dict in that copy, so the mutation lands on the
stored account object; it is therefore embedded as an update of the store
list.  _save_accounts json.dumps the store, emitting every key present on
each account dict. -/

/-- AccountManager.mark_invalid: set is_invalid / invalid_reason on the
first account with the given email (mutating the shared dict), then break. -/
def mark_invalid : List Account → String → String → List Account
  | [], _, _ => []
  | a :: rest, email, reason =>
    if a.email = email then
      { a with is_invalid := some true, invalid_reason := some reason } :: rest
    else a :: mark_invalid rest email reason

/-- Authenticator.remove_account: drop matching accounts; when the list
shrank, _save_accounts writes the remaining list (the Bool records whether
the write happened). -/
def remove_account (accounts : List Account) (email : String) : List Account × Bool :=
  let remaining := accounts.filter (fun a => a.email ≠ email)
  (remaining, remaining.length < accounts.length)

/-- Whether the document json.dump would write for this store carries an
is_invalid or invalid_reason key on some account. -/
def savedDocHasInvalidKeys (accounts : List Account) : Bool :=
  accounts.any (fun a => a.is_invalid.isSome || a.invalid_reason.isSome)

/-- C2 counterexample: store {a@x, b@y} with pristine dicts; mark_invalid
a@x, then remove_account b@y (one of the operations that calls
_save_accounts).  The save does happen, and the persisted document contains
is_invalid and invalid_reason for a@x, contradicting the claim that the
persisted file never carries these fields. -/
theorem C2_counterexample :
    (remove_account (mark_invalid [{ email := "a@x" }, { email := "b@y" }] "a@x" "Auth error")
        "b@y").2 = true ∧
    savedDocHasInvalidKeys
      (remove_account (mark_invalid [{ email := "a@x" }, { email := "b@y" }] "a@x" "Auth error")
        "b@y").1 = true := by
  constructor
  · rfl
  · rfl

/-- C2 amended: mark_invalid writes nothing to disk itself, but because
get_accounts returns a shallow copy it mutates the stored account objects;
whenever the store still contains an account with the marked email, the
document a subsequent _save_accounts writes carries the is_invalid and
invalid_reason keys. -/
theorem C2_mark_invalid_persisted (accounts : List Account) (email reason : String)
    (hmem : ∃ a ∈ accounts, a.email = email) :
    savedDocHasInvalidKeys (mark_invalid accounts email reason) = true := by
  induction accounts with
  | nil =>
    obtain ⟨a, ha, _⟩ := hmem
    cases ha
  | cons a rest ih =>
    by_cases he : a.email = email
    · simp [mark_invalid, he, savedDocHasInvalidKeys]
    · obtain ⟨b, hb, hbe⟩ := hmem
      rcases List.mem_cons.mp hb with hba | hbr
      · exact absurd (hba ▸ hbe) he
      · have := ih ⟨b, hbr, hbe⟩
        simp only [mark_invalid, he, if_false, savedDocHasInvalidKeys, List.any_cons]
        rw [savedDocHasInvalidKeys] at this
        rw [this]
        simp

/-- Witness for C2 amended: marking a@x in a one-account store makes the
next saved document carry the invalid keys. -/
theorem C2_mark_invalid_persisted_witness :
    savedDocHasInvalidKeys (mark_invalid [{ email := "a@x" }] "a@x" "Unknown") = true :=
  C2_mark_invalid_persisted [{ email := "a@x" }] "a@x" "Unknown"
    ⟨{ email := "a@x" }, by decide, rfl⟩

/-! ### common_utils.parse_reset_time_from_error

Each pattern `reset after (\d+)h(\d+)m(\d+)s` (and its five suffixed
variants) is literal text plus digit groups, matched case-insensitively
with re.search (leftmost match).  A pattern is embedded as its list of
(unit letter, millisecond multiplier) pairs; the match result is directly
the total milliseconds, exactly the sum the Python branch computes from the
groups of that pattern. -/

/-- Match the `(\d+)u` pairs of one pattern at the head, summing
group * multiplier over the units. -/
def unitsMs : List (Char × Nat) → List Char → Option Nat
  | [], _ => some 0
  | (u, mult) :: us, cs =>
    match matchDigits cs with
    | some (n, cs2) =>
      match cs2 with
      | c :: cs3 => if c = u then (unitsMs us cs3).map (fun r => n * mult + r) else none
      | [] => none
    | none => none

/-- Match one full pattern (`reset after ` then the unit groups) anchored
at the head. -/
def matchResetAt (units : List (Char × Nat)) (cs : List Char) : Option Nat :=
  (matchLit "reset after ".data cs).bind (unitsMs units)

/-- re.search for one pattern: leftmost anchored match wins. -/
def searchReset (units : List (Char × Nat)) : List Char → Option Nat
  | [] => none
  | c :: cs =>
    match matchResetAt units (c :: cs) with
    | some n => some n
    | none => searchReset units cs

/-- The six patterns, in the order the source tries them. -/
def RESET_PATTERNS : List (List (Char × Nat)) :=
  [[('h', 3600000), ('m', 60000), ('s', 1000)],
   [('h', 3600000), ('m', 60000)],
   [('h', 3600000)],
   [('m', 60000), ('s', 1000)],
   [('m', 60000)],
   [('s', 1000)]]

def tryResetPatterns : List (List (Char × Nat)) → List Char → Option Nat
  | [], _ => none
  | p :: ps, cs =>
    match searchReset p cs with
    | some n => some n
    | none => tryResetPatterns ps cs

/-- common_utils.parse_reset_time_from_error: lowercase the text (the
IGNORECASE of re.search over all-lowercase patterns), try the patterns in
order, return total milliseconds or nil. -/
def parse_reset_time_from_error (error_text : String) : Option Nat :=
  tryResetPatterns RESET_PATTERNS (lowerChars error_text)

/-- No pattern matches anywhere in the text. -/
def matchesNoResetPattern (s : String) : Prop :=
  ∀ p ∈ RESET_PATTERNS, searchReset p (lowerChars s) = none

theorem toNat_ofNat_of_valid {n : Nat} (h : Nat.isValidChar n) :
    (Char.ofNat n).toNat = n := by
  unfold Char.ofNat
  rw [dif_pos h]
  simp [Char.ofNatAux, Char.toNat, UInt32.toNat, BitVec.toNat_ofNatLt]

theorem charLower_charUpper (c : Char) : charLower (charUpper c) = charLower c := by
  unfold charUpper
  by_cases h : 97 ≤ c.toNat ∧ c.toNat ≤ 122
  · rw [if_pos h]
    have hv : Nat.isValidChar (c.toNat - 32) := Or.inl (by omega)
    have ht : (Char.ofNat (c.toNat - 32)).toNat = c.toNat - 32 := toNat_ofNat_of_valid hv
    unfold charLower
    rw [ht, if_pos (by omega : 65 ≤ c.toNat - 32 ∧ c.toNat - 32 ≤ 90),
      if_neg (by omega : ¬ (65 ≤ c.toNat ∧ c.toNat ≤ 90))]
    have h32 : c.toNat - 32 + 32 = c.toNat := by omega
    rw [h32, Char.ofNat_toNat]
  · rw [if_neg h]

theorem tryResetPatterns_none (cs : List Char) :
    ∀ ps : List (List (Char × Nat)), (∀ p ∈ ps, searchReset p cs = none) →
      tryResetPatterns ps cs = none := by
  intro ps
  induction ps with
  | nil => intro _; rfl
  | cons p rest ih =>
    intro h
    rw [tryResetPatterns, h p (List.mem_cons_self p rest)]
    exact ih (fun q hq => h q (List.mem_cons_of_mem p hq))

/-- C7: the duration parser returns 3_600_000 ms for `reset after 1h0m0s`
and 300_000 ms for `reset after 5m` (also inside a longer error message),
matches case-insensitively (ASCII-uppercasing the input never changes the
result), and returns nil whenever no pattern matches — the value callers
turn into the default 60_000 ms cooldown. -/
theorem C7_parse_reset_time :
    parse_reset_time_from_error "reset after 1h0m0s" = some 3600000 ∧
    parse_reset_time_from_error "reset after 5m" = some 300000 ∧
    parse_reset_time_from_error "Quota exceeded; RESET AFTER 1H0M0S (retry later)" =
      some 3600000 ∧
    (∀ s : String,
      parse_reset_time_from_error (String.mk (s.data.map charUpper)) =
        parse_reset_time_from_error s) ∧
    (∀ s : String, matchesNoResetPattern s → parse_reset_time_from_error s = none) := by
  refine ⟨by rfl, by rfl, by rfl, ?_, ?_⟩
  · intro s
    show tryResetPatterns RESET_PATTERNS ((s.data.map charUpper).map charLower) =
      tryResetPatterns RESET_PATTERNS (s.data.map charLower)
    rw [List.map_map]
    congr 1
    exact List.map_congr_left (fun c _ => charLower_charUpper c)
  · intro s h
    exact tryResetPatterns_none (lowerChars s) RESET_PATTERNS h

/-- Witness for C7 at a concrete input with no duration phrase: every
pattern search fails and the parser returns nil. -/
theorem C7_parse_reset_time_witness :
    matchesNoResetPattern "quota exceeded, try again later" ∧
    parse_reset_time_from_error "quota exceeded, try again later" = none :=
  ⟨by unfold matchesNoResetPattern; decide,
   C7_parse_reset_time.2.2.2.2 "quota exceeded, try again later"
     (by unfold matchesNoResetPattern; decide)⟩

/-! ### chat/transformation.py: generationConfig of _build_request_payload

Only the generation_config portion of the payload builder is embedded here
(contents, tools, session/request ids are independent of it).  Option
fields model dict-key presence. -/

/-- The Python `stop` optional param: a scalar string or a list. -/
inductive StopParam where
  | str : String → StopParam
  | list : List String → StopParam
deriving DecidableEq

/-- The optional_params keys _build_request_payload reads for
generation_config.  `thinking_budget_tokens` is
`optional_params.get("thinking", {}).get("budget_tokens")`. -/
structure OptionalParams where
  max_tokens : Option Int := none
  temperature : Option Rat := none
  top_p : Option Rat := none
  stop : Option StopParam := none
  thinking_budget_tokens : Option Int := none
deriving DecidableEq

/-- The thinkingConfig dict: snake_case keys for the Claude family,
camelCase for the rest. -/
inductive ThinkingConfig where
  | claude (include_thoughts : Bool) (thinking_budget : Option Int)
  | gemini (includeThoughts : Bool) (thinkingBudget : Int)
deriving DecidableEq

structure GenerationConfig where
  maxOutputTokens : Option Int := none
  temperature : Option Rat := none
  topP : Option Rat := none
  stopSequences : Option (List String) := none
  thinkingConfig : Option ThinkingConfig := none
deriving DecidableEq

/-- The generation_config built by AntigravityConfig._build_request_payload:
base keys from optional_params, the thinking block (with the Claude
`maxOutputTokens` raise when the budget is truthy and reaches it), then the
Gemini 16384 clamp. -/
def build_generation_config (model : String) (optional_params : OptionalParams) :
    GenerationConfig :=
  let model_family := get_model_family model
  let is_thinking := is_thinking_model model
  let g0 : GenerationConfig :=
    { maxOutputTokens := optional_params.max_tokens,
      temperature := optional_params.temperature,
      topP := optional_params.top_p,
      stopSequences :=
        match optional_params.stop with
        | some (.str s) => some [s]
        | some (.list l) => some l
        | none => none }
  let g1 : GenerationConfig :=
    if is_thinking then
      if model_family = "claude" then
        match optional_params.thinking_budget_tokens with
        | some budget =>
          if budget ≠ 0 then
            let max_tokens := g0.maxOutputTokens.getD 0
            let g2 :=
              if max_tokens ≠ 0 ∧ max_tokens ≤ budget then
                { g0 with maxOutputTokens := some (budget + 8192) }
              else g0
            { g2 with thinkingConfig := some (.claude true (some budget)) }
          else { g0 with thinkingConfig := some (.claude true none) }
        | none => { g0 with thinkingConfig := some (.claude true none) }
      else
        let thinkingBudget := optional_params.thinking_budget_tokens.getD 16000
        { g0 with thinkingConfig := some (.gemini true thinkingBudget) }
    else g0
  if model_family = "gemini" then
    if GEMINI_MAX_OUTPUT_TOKENS < g1.maxOutputTokens.getD 0 then
      { g1 with maxOutputTokens := some GEMINI_MAX_OUTPUT_TOKENS }
    else g1
  else g1

/-- C4 counterexample: Claude thinking model with budget 1000 equal to
max_tokens 1000.  The claim predicts maxOutputTokens = 1000 (since the
budget does not exceed max_tokens), but the code raises on
`max_tokens <= budget` and produces 1000 + 8192 = 9192. -/
theorem C4_counterexample :
    (build_generation_config "claude-sonnet-4.5-thinking"
        { max_tokens := some 1000, thinking_budget_tokens := some 1000 }).maxOutputTokens =
      some 9192 ∧
    (some (9192 : Int)) ≠ (some (1000 : Int)) := by
  constructor
  · rfl
  · decide

/-- C4 amended: for a Claude-family thinking model with a (truthy) thinking
budget b and (truthy) max_tokens m, maxOutputTokens is b + 8192 exactly
when b is at least m (`max_tokens <= budget`, not strict excess), and m
otherwise. -/
theorem C4_thinking_budget_amended (model : String) (p : OptionalParams)
    (b m : Int)
    (hfam : get_model_family model = "claude")
    (hth : is_thinking_model model = true)
    (hb : p.thinking_budget_tokens = some b) (hb0 : b ≠ 0)
    (hm : p.max_tokens = some m) (hm0 : m ≠ 0) :
    (build_generation_config model p).maxOutputTokens =
      (if m ≤ b then some (b + 8192) else some m) := by
  rw [build_generation_config]
  simp only [hfam, hth, hb, hm]
  have hcg : ¬ ("claude" : String) = "gemini" := by decide
  by_cases hle : m ≤ b
  · simp [hb0, hle, hm0, hcg, Option.getD]
  · simp [hb0, hle, hm0, hcg, Option.getD]

/-- Witness for C4 amended: budget 2000 strictly above max_tokens 1000
raises maxOutputTokens to 10192. -/
theorem C4_thinking_budget_amended_witness :
    (build_generation_config "claude-sonnet-4.5-thinking"
        { max_tokens := some 1000, thinking_budget_tokens := some 2000 }).maxOutputTokens =
      (if (1000 : Int) ≤ 2000 then some (2000 + 8192) else some 1000) :=
  C4_thinking_budget_amended "claude-sonnet-4.5-thinking"
    { max_tokens := some 1000, thinking_budget_tokens := some 2000 } 2000 1000
    (by rfl) (by rfl) rfl (by decide) rfl (by decide)

/-- C8: with max_tokens above 16384, a Gemini-family model gets
maxOutputTokens clamped to exactly 16384, while on a Claude-family model
maxOutputTokens is never reduced below the requested value. -/
theorem C8_gemini_clamp (model : String) (p : OptionalParams) (t : Int)
    (hm : p.max_tokens = some t) (ht : 16384 < t) :
    (get_model_family model = "gemini" →
      (build_generation_config model p).maxOutputTokens = some 16384) ∧
    (get_model_family model = "claude" →
      ∃ r, (build_generation_config model p).maxOutputTokens = some r ∧ t ≤ r) := by
  constructor
  · intro hfam
    rw [build_generation_config]
    have hgc : ¬ ("gemini" : String) = "claude" := by decide
    simp only [hfam, hm, hgc, if_false]
    by_cases hth : is_thinking_model model = true
    · simp [hth, GEMINI_MAX_OUTPUT_TOKENS, Option.getD, ht]
    · simp [Bool.not_eq_true] at hth
      simp [hth, GEMINI_MAX_OUTPUT_TOKENS, Option.getD, ht]
  · intro hfam
    rw [build_generation_config]
    have hcg : ¬ ("claude" : String) = "gemini" := by decide
    simp only [hfam, hm, hcg, if_false]
    by_cases hth : is_thinking_model model = true
    · rcases hbud : p.thinking_budget_tokens with _ | b
      · refine ⟨t, ?_, le_refl t⟩
        simp [hth, hbud]
      · by_cases hb0 : b = 0
        · refine ⟨t, ?_, le_refl t⟩
          simp [hth, hbud, hb0]
        · by_cases hle : t ≤ b
          · refine ⟨b + 8192, ?_, by omega⟩
            have ht0 : t ≠ 0 := by omega
            simp [hth, hbud, hb0, hle, ht0, Option.getD]
          · refine ⟨t, ?_, le_refl t⟩
            simp [hth, hbud, hb0, hle, Option.getD]
    · simp [Bool.not_eq_true] at hth
      refine ⟨t, ?_, le_refl t⟩
      simp [hth]

/-- Witness for C8 at max_tokens 20000: clamped to 16384 on a Gemini model,
kept at least 20000 on a Claude model. -/
theorem C8_gemini_clamp_witness :
    ((get_model_family "gemini-2.5-pro" = "gemini" →
      (build_generation_config "gemini-2.5-pro"
          { max_tokens := some 20000 }).maxOutputTokens = some 16384) ∧
    (get_model_family "gemini-2.5-pro" = "claude" →
      ∃ r, (build_generation_config "gemini-2.5-pro"
          { max_tokens := some 20000 }).maxOutputTokens = some r ∧ (20000 : Int) ≤ r)) ∧
    ((get_model_family "claude-sonnet-4.5" = "gemini" →
      (build_generation_config "claude-sonnet-4.5"
          { max_tokens := some 20000 }).maxOutputTokens = some 16384) ∧
    (get_model_family "claude-sonnet-4.5" = "claude" →
      ∃ r, (build_generation_config "claude-sonnet-4.5"
          { max_tokens := some 20000 }).maxOutputTokens = some r ∧ (20000 : Int) ≤ r)) :=
  ⟨C8_gemini_clamp "gemini-2.5-pro" { max_tokens := some 20000 } 20000 rfl (by decide),
   C8_gemini_clamp "claude-sonnet-4.5" { max_tokens := some 20000 } 20000 rfl (by decide)⟩

/-! ### chat/transformation.py: _convert_google_response_to_openai

The message-building slice of the converter: candidates[0].content.parts is
the part list; the id/created fields and token counts are independent of
the assistant message.  A part dict with a "text" key maps to `.text` (the
"text" branch is checked first in the source), one with only a
"functionCall" key to `.functionCall`; any other part is skipped.  The
random default tool-call id and the json.dumps serialization of args are
kept abstract (id as an Option, args as an opaque payload string). -/

inductive GooglePart where
  | text (s : String) (thought : Bool) (thoughtSignature : String)
  | functionCall (id : Option String) (name : String) (args : String)
  | other
deriving DecidableEq

inductive ContentBlock where
  | thinking (text signature : String)
  | text (s : String)
deriving DecidableEq

structure OpenAIToolCall where
  id : Option String
  name : String
  arguments : String
deriving DecidableEq

/-- The assistant message: `content` is None or a string; the tool_calls
key is present exactly when the list is non-empty. -/
structure OpenAIMessage where
  content : Option String
  tool_calls : List OpenAIToolCall
deriving DecidableEq

/-- The part loop: accumulate content blocks and tool calls in order. -/
def partsToBlocks : List GooglePart → List ContentBlock × List OpenAIToolCall
  | [] => ([], [])
  | p :: rest =>
    let acc := partsToBlocks rest
    match p with
    | .text s thought sig =>
      if thought then (ContentBlock.thinking s sig :: acc.1, acc.2)
      else (ContentBlock.text s :: acc.1, acc.2)
    | .functionCall id name args => (acc.1, { id := id, name := name, arguments := args } :: acc.2)
    | .other => acc

/-- Python `text_content`: concatenation of the texts of the text-type blocks. -/
def textContent : List ContentBlock → String
  | [] => ""
  | ContentBlock.text s :: rest => s ++ textContent rest
  | ContentBlock.thinking _ _ :: rest => textContent rest

/-- The assistant message of _convert_google_response_to_openai:
`content = text_content or None` plus the collected tool calls. -/
def convert_google_parts_to_openai_message (parts : List GooglePart) : OpenAIMessage :=
  let acc := partsToBlocks parts
  let text_content := textContent acc.1
  { content := if text_content = "" then none else some text_content,
    tool_calls := acc.2 }

/-- C5 counterexample: an empty part list (a response with no parts at all)
yields content = None together with an empty tool-call list, whereas the
claim says an empty concatenation without tool_calls yields the empty
string, not null. -/
theorem C5_counterexample :
    (convert_google_parts_to_openai_message []).content = none ∧
    (convert_google_parts_to_openai_message []).tool_calls = [] := by
  constructor
  · rfl
  · rfl

/-- The concatenation of the non-thought text parts, read directly off the
part list (the quantity the claim talks about). -/
def nonThoughtTextConcat : List GooglePart → String
  | [] => ""
  | GooglePart.text s thought _ :: rest =>
    if thought then nonThoughtTextConcat rest else s ++ nonThoughtTextConcat rest
  | _ :: rest => nonThoughtTextConcat rest

theorem textContent_partsToBlocks (parts : List GooglePart) :
    textContent (partsToBlocks parts).1 = nonThoughtTextConcat parts := by
  induction parts with
  | nil => rfl
  | cons p rest ih =>
    cases p with
    | text s thought sig =>
      cases thought with
      | false => simp [partsToBlocks, nonThoughtTextConcat, textContent, ih]
      | true => simp [partsToBlocks, nonThoughtTextConcat, textContent, ih]
    | functionCall id name args => simp [partsToBlocks, nonThoughtTextConcat, textContent, ih]
    | other => simp [partsToBlocks, nonThoughtTextConcat, ih]

/-- C5 amended: the assistant content equals the concatenation of the texts
of the non-thought text parts when that concatenation is non-empty, and is
null whenever it is empty — whether or not tool_calls are present. -/
theorem C5_response_content_amended (parts : List GooglePart) :
    (convert_google_parts_to_openai_message parts).content =
      (if nonThoughtTextConcat parts = "" then none else some (nonThoughtTextConcat parts)) := by
  rw [convert_google_parts_to_openai_message]
  simp only [textContent_partsToBlocks]

/-! ### chat/transformation.py: _sanitize_schema

JSON values as Python holds them, with dicts as insertion-ordered key/value
lists (keys unique in values coming from json).  The sanitizer drops the
metadata keys, recurses through properties / items / additionalProperties
and any other dict-valued entry, keeps additionalProperties only when it is
a dict or False, leaves non-dict values (lists included) untouched, and
appends `"type": "object"` when the result lacks a type key. -/

inductive JValue where
  | null : JValue
  | bool : Bool → JValue
  | num : Int → JValue
  | str : String → JValue
  | arr : List JValue → JValue
  | obj : List (String × JValue) → JValue

/-- The metadata keys the sanitizer drops. -/
def isBannedKey (k : String) : Bool :=
  k == "$schema" || k == "$id" || k == "$ref" || k == "definitions" ||
    k == "$defs" || k == "examples" || k == "default"

/-- Python `"type" in result` on the ordered entry list. -/
def hasKey (k : String) : List (String × JValue) → Bool
  | [] => false
  | (k2, _) :: rest => k2 == k || hasKey k rest

mutual
/-- Python _sanitize_schema: a non-dict collapses to {"type": "object"}; a dict is
filtered and recursed entrywise, and a missing "type" key is appended. -/
def sanitizeSchema : JValue → JValue
  | .obj entries =>
    let result := sanitizeEntries entries
    .obj (if hasKey "type" result then result else result ++ [("type", JValue.str "object")])
  | _ => .obj [("type", JValue.str "object")]

/-- The per-entry if/elif chain of the sanitizer loop. -/
def sanitizeEntries : List (String × JValue) → List (String × JValue)
  | [] => []
  | (key, value) :: rest =>
    if isBannedKey key then sanitizeEntries rest
    else if key == "properties" then
      match value with
      | .obj props => (key, JValue.obj (sanitizeProps props)) :: sanitizeEntries rest
      | _ => (key, value) :: sanitizeEntries rest
    else if key == "items" then
      match value with
      | .obj entries2 => (key, sanitizeSchema (JValue.obj entries2)) :: sanitizeEntries rest
      | _ => (key, value) :: sanitizeEntries rest
    else if key == "additionalProperties" then
      match value with
      | .obj entries2 => (key, sanitizeSchema (JValue.obj entries2)) :: sanitizeEntries rest
      | .bool false => (key, JValue.bool false) :: sanitizeEntries rest
      | _ => sanitizeEntries rest
    else
      match value with
      | .obj entries2 => (key, sanitizeSchema (JValue.obj entries2)) :: sanitizeEntries rest
      | _ => (key, value) :: sanitizeEntries rest

/-- The dict comprehension sanitizing each property value. -/
def sanitizeProps : List (String × JValue) → List (String × JValue)
  | [] => []
  | (k, v) :: rest => (k, sanitizeSchema v) :: sanitizeProps rest
end

/-- The final `if "type" not in result` step, as a named function. -/
def withTypeKey (l : List (String × JValue)) : List (String × JValue) :=
  if hasKey "type" l then l else l ++ [("type", JValue.str "object")]

theorem sanitizeSchema_obj (entries : List (String × JValue)) :
    sanitizeSchema (JValue.obj entries) = JValue.obj (withTypeKey (sanitizeEntries entries)) :=
  rfl

theorem sanitizeSchema_isObj (v : JValue) : ∃ l, sanitizeSchema v = JValue.obj l := by
  cases v <;> exact ⟨_, rfl⟩

theorem sanitizeEntries_typeObject :
    sanitizeEntries [("type", JValue.str "object")] = [("type", JValue.str "object")] := by
  simp [sanitizeEntries, isBannedKey]

theorem hasKey_append (k : String) :
    ∀ l1 l2, hasKey k (l1 ++ l2) = (hasKey k l1 || hasKey k l2) := by
  intro l1
  induction l1 with
  | nil => intro l2; simp [hasKey]
  | cons kv rest ih =>
    intro l2
    obtain ⟨k2, v⟩ := kv
    simp [hasKey, ih, Bool.or_assoc]

theorem sanitizeEntries_append :
    ∀ l1 l2, sanitizeEntries (l1 ++ l2) = sanitizeEntries l1 ++ sanitizeEntries l2 := by
  intro l1
  induction l1 with
  | nil => intro l2; rfl
  | cons kv rest ih =>
    intro l2
    obtain ⟨key, value⟩ := kv
    cases value with
    | bool b =>
      cases b <;> cases hb : isBannedKey key <;> cases hp : key == "properties" <;>
        cases hi : key == "items" <;> cases ha : key == "additionalProperties" <;>
        simp [sanitizeEntries, hb, hp, hi, ha, ih]
    | null =>
      cases hb : isBannedKey key <;> cases hp : key == "properties" <;>
        cases hi : key == "items" <;> cases ha : key == "additionalProperties" <;>
        simp [sanitizeEntries, hb, hp, hi, ha, ih]
    | num i =>
      cases hb : isBannedKey key <;> cases hp : key == "properties" <;>
        cases hi : key == "items" <;> cases ha : key == "additionalProperties" <;>
        simp [sanitizeEntries, hb, hp, hi, ha, ih]
    | str s =>
      cases hb : isBannedKey key <;> cases hp : key == "properties" <;>
        cases hi : key == "items" <;> cases ha : key == "additionalProperties" <;>
        simp [sanitizeEntries, hb, hp, hi, ha, ih]
    | arr l =>
      cases hb : isBannedKey key <;> cases hp : key == "properties" <;>
        cases hi : key == "items" <;> cases ha : key == "additionalProperties" <;>
        simp [sanitizeEntries, hb, hp, hi, ha, ih]
    | obj e2 =>
      cases hb : isBannedKey key <;> cases hp : key == "properties" <;>
        cases hi : key == "items" <;> cases ha : key == "additionalProperties" <;>
        simp [sanitizeEntries, hb, hp, hi, ha, ih]

theorem hasKey_type_sanitizeEntries :
    ∀ l, hasKey "type" l = true → hasKey "type" (sanitizeEntries l) = true := by
  intro l
  induction l with
  | nil => intro h; simp [hasKey] at h
  | cons kv rest ih =>
    obtain ⟨key, value⟩ := kv
    intro h
    cases hk : key == "type" with
    | true =>
      have hkey : key = "type" := by simpa using hk
      subst hkey
      have hb : isBannedKey "type" = false := by decide
      have hp : (("type" : String) == "properties") = false := by decide
      have hi : (("type" : String) == "items") = false := by decide
      have ha : (("type" : String) == "additionalProperties") = false := by decide
      cases value with
      | bool b => cases b <;> simp [sanitizeEntries, hasKey, hb, hp, hi, ha]
      | null => simp [sanitizeEntries, hasKey, hb, hp, hi, ha]
      | num i => simp [sanitizeEntries, hasKey, hb, hp, hi, ha]
      | str s => simp [sanitizeEntries, hasKey, hb, hp, hi, ha]
      | arr l => simp [sanitizeEntries, hasKey, hb, hp, hi, ha]
      | obj e2 => simp [sanitizeEntries, hasKey, hb, hp, hi, ha]
    | false =>
      have hr : hasKey "type" rest = true := by
        simp [hasKey, hk] at h
        exact h
      cases value with
      | bool b =>
        cases b <;> cases hb : isBannedKey key <;> cases hp : key == "properties" <;>
          cases hi : key == "items" <;> cases ha : key == "additionalProperties" <;>
          simp [sanitizeEntries, hasKey, hb, hp, hi, ha, hk, ih hr]
      | null =>
        cases hb : isBannedKey key <;> cases hp : key == "properties" <;>
          cases hi : key == "items" <;> cases ha : key == "additionalProperties" <;>
          simp [sanitizeEntries, hasKey, hb, hp, hi, ha, hk, ih hr]
      | num i =>
        cases hb : isBannedKey key <;> cases hp : key == "properties" <;>
          cases hi : key == "items" <;> cases ha : key == "additionalProperties" <;>
          simp [sanitizeEntries, hasKey, hb, hp, hi, ha, hk, ih hr]
      | str s =>
        cases hb : isBannedKey key <;> cases hp : key == "properties" <;>
          cases hi : key == "items" <;> cases ha : key == "additionalProperties" <;>
          simp [sanitizeEntries, hasKey, hb, hp, hi, ha, hk, ih hr]
      | arr l =>
        cases hb : isBannedKey key <;> cases hp : key == "properties" <;>
          cases hi : key == "items" <;> cases ha : key == "additionalProperties" <;>
          simp [sanitizeEntries, hasKey, hb, hp, hi, ha, hk, ih hr]
      | obj e2 =>
        cases hb : isBannedKey key <;> cases hp : key == "properties" <;>
          cases hi : key == "items" <;> cases ha : key == "additionalProperties" <;>
          simp [sanitizeEntries, hasKey, hb, hp, hi, ha, hk, ih hr]

theorem sanitize_idem_measure : ∀ n : Nat,
    (∀ v : JValue, sizeOf v ≤ n → sanitizeSchema (sanitizeSchema v) = sanitizeSchema v) ∧
    (∀ l : List (String × JValue), sizeOf l ≤ n →
      sanitizeEntries (sanitizeEntries l) = sanitizeEntries l) ∧
    (∀ l : List (String × JValue), sizeOf l ≤ n →
      sanitizeProps (sanitizeProps l) = sanitizeProps l) := by
  intro n
  induction n using Nat.strong_induction_on with
  | _ n IH =>
    have A : ∀ v : JValue, sizeOf v < n →
        sanitizeSchema (sanitizeSchema v) = sanitizeSchema v :=
      fun v hv => (IH (sizeOf v) hv).1 v (le_refl _)
    have B : ∀ l : List (String × JValue), sizeOf l < n →
        sanitizeEntries (sanitizeEntries l) = sanitizeEntries l :=
      fun l hl => (IH (sizeOf l) hl).2.1 l (le_refl _)
    have Cp : ∀ l : List (String × JValue), sizeOf l < n →
        sanitizeProps (sanitizeProps l) = sanitizeProps l :=
      fun l hl => (IH (sizeOf l) hl).2.2 l (le_refl _)
    refine ⟨?_, ?_, ?_⟩
    · intro v hv
      cases v with
      | obj entries =>
        have hsz : sizeOf entries < n := by
          have hs : sizeOf (JValue.obj entries) = 1 + sizeOf entries := by simp
          omega
        have hB := B entries hsz
        rw [sanitizeSchema_obj, sanitizeSchema_obj]
        congr 1
        cases ht : hasKey "type" (sanitizeEntries entries) with
        | true => simp [withTypeKey, ht, hB]
        | false =>
          simp only [withTypeKey, ht, Bool.false_eq_true, if_false, sanitizeEntries_append,
            hB, sanitizeEntries_typeObject, hasKey_append, hasKey]
          simp
      | null => rfl
      | bool b => rfl
      | num i => rfl
      | str s => rfl
      | arr l => rfl
    · intro l hl
      cases l with
      | nil => rfl
      | cons kv rest =>
        obtain ⟨key, value⟩ := kv
        have hszr : sizeOf rest < n := by
          have h1 : sizeOf ((key, value) :: rest) = 1 + sizeOf (key, value) + sizeOf rest := by
            simp
          omega
        have hszv : sizeOf value < n := by
          have h1 : sizeOf ((key, value) :: rest) = 1 + sizeOf (key, value) + sizeOf rest := by
            simp
          have h2 : sizeOf (key, value) = 1 + sizeOf key + sizeOf value := by simp
          omega
        have hBr := B rest hszr
        cases value with
        | null =>
          cases hb : isBannedKey key <;> cases hp : key == "properties" <;>
            cases hi : key == "items" <;> cases ha : key == "additionalProperties" <;>
            simp [sanitizeEntries, hb, hp, hi, ha, hBr]
        | bool b =>
          cases b <;> cases hb : isBannedKey key <;> cases hp : key == "properties" <;>
            cases hi : key == "items" <;> cases ha : key == "additionalProperties" <;>
            simp [sanitizeEntries, hb, hp, hi, ha, hBr]
        | num i =>
          cases hb : isBannedKey key <;> cases hp : key == "properties" <;>
            cases hi : key == "items" <;> cases ha : key == "additionalProperties" <;>
            simp [sanitizeEntries, hb, hp, hi, ha, hBr]
        | str s =>
          cases hb : isBannedKey key <;> cases hp : key == "properties" <;>
            cases hi : key == "items" <;> cases ha : key == "additionalProperties" <;>
            simp [sanitizeEntries, hb, hp, hi, ha, hBr]
        | arr la =>
          cases hb : isBannedKey key <;> cases hp : key == "properties" <;>
            cases hi : key == "items" <;> cases ha : key == "additionalProperties" <;>
            simp [sanitizeEntries, hb, hp, hi, ha, hBr]
        | obj e2 =>
          have hsze : sizeOf e2 < n := by
            have hs : sizeOf (JValue.obj e2) = 1 + sizeOf e2 := by simp
            omega
          obtain ⟨X, hX⟩ := sanitizeSchema_isObj (JValue.obj e2)
          have hA2 : sanitizeSchema (JValue.obj X) = JValue.obj X := by
            have hA := A (JValue.obj e2) hszv
            rw [hX] at hA
            exact hA
          have hCp := Cp e2 hsze
          cases hb : isBannedKey key with
          | true => simp [sanitizeEntries, hb, hBr]
          | false =>
            cases hp : key == "properties" with
            | true => simp [sanitizeEntries, hb, hp, hCp, hBr]
            | false =>
              cases hi : key == "items" with
              | true =>
                have hstep1 : sanitizeEntries ((key, JValue.obj e2) :: rest) =
                    (key, sanitizeSchema (JValue.obj e2)) :: sanitizeEntries rest := by
                  simp [sanitizeEntries, hb, hp, hi]
                have hstep2 : sanitizeEntries ((key, JValue.obj X) :: sanitizeEntries rest) =
                    (key, sanitizeSchema (JValue.obj X)) ::
                      sanitizeEntries (sanitizeEntries rest) := by
                  simp [sanitizeEntries, hb, hp, hi]
                rw [hstep1, hX, hstep2, hBr, hA2]
              | false =>
                cases ha : key == "additionalProperties" with
                | true =>
                  have hstep1 : sanitizeEntries ((key, JValue.obj e2) :: rest) =
                      (key, sanitizeSchema (JValue.obj e2)) :: sanitizeEntries rest := by
                    simp [sanitizeEntries, hb, hp, hi, ha]
                  have hstep2 : sanitizeEntries ((key, JValue.obj X) :: sanitizeEntries rest) =
                      (key, sanitizeSchema (JValue.obj X)) ::
                        sanitizeEntries (sanitizeEntries rest) := by
                    simp [sanitizeEntries, hb, hp, hi, ha]
                  rw [hstep1, hX, hstep2, hBr, hA2]
                | false =>
                  have hstep1 : sanitizeEntries ((key, JValue.obj e2) :: rest) =
                      (key, sanitizeSchema (JValue.obj e2)) :: sanitizeEntries rest := by
                    simp [sanitizeEntries, hb, hp, hi, ha]
                  have hstep2 : sanitizeEntries ((key, JValue.obj X) :: sanitizeEntries rest) =
                      (key, sanitizeSchema (JValue.obj X)) ::
                        sanitizeEntries (sanitizeEntries rest) := by
                    simp [sanitizeEntries, hb, hp, hi, ha]
                  rw [hstep1, hX, hstep2, hBr, hA2]
    · intro l hl
      cases l with
      | nil => rfl
      | cons kv rest =>
        obtain ⟨k, v⟩ := kv
        have hszr : sizeOf rest < n := by
          have h1 : sizeOf ((k, v) :: rest) = 1 + sizeOf (k, v) + sizeOf rest := by simp
          omega
        have hszv : sizeOf v < n := by
          have h1 : sizeOf ((k, v) :: rest) = 1 + sizeOf (k, v) + sizeOf rest := by simp
          have h2 : sizeOf (k, v) = 1 + sizeOf k + sizeOf v := by simp
          omega
        have hAv := A v hszv
        have hCr := Cp rest hszr
        simp [sanitizeProps, hAv, hCr]

/-- C10: the JSON-Schema sanitizer of the tool declarations is idempotent:
sanitizing a sanitized schema value (dropping the metadata keys, recursing
through properties / items / additionalProperties and nested dicts, and
forcing type "object" when absent) returns it unchanged. -/
theorem C10_sanitize_schema_idempotent (s : JValue) :
    sanitizeSchema (sanitizeSchema s) = sanitizeSchema s :=
  (sanitize_idem_measure (sizeOf s)).1 s (le_refl _)

end Antigravity
